import Mathlib

/-!
# Verification of `metasv/sv_interval.py`

A shallow embedding of the interval entity, the geometric predicates, the
merge engine, the near-neighbour lookup and the validation engine of
`metasv/sv_interval.py`, together with theorems settling the spec claims.

Conventions of the embedding:
* Python integers are `Int`; Python floats (used only as overlap-fraction
  thresholds) are modelled as exact rationals `ℚ`, with the default
  `1e-9` rendered as `1/10^9`.
* Python sets of source-tool names are modelled as duplicate-free
  `List String` kept in insertion order; `list(s)[0]` on a singleton set is
  the head of that list.
* In-place mutation is modelled by returning the updated value; for
  `list.sort()` (which sorts the caller's list in place) the content of the
  argument list after the call is exposed as a separate function.
* Code that can raise (`list(sources)[0]` on an empty set, the
  `lists[source]` dict lookup for an unrecognized source) is modelled with
  `Option`/`Except`; `none`/`.error` is an uncaught Python exception.
* Python's stable `list.sort()` (driven solely by `__lt__`) is modelled by a
  stable insertion sort over the same `__lt__`; a stable sort's output is
  uniquely determined by the strict weak order, so this is the same list
  Python produces.
-/

/-- Lexicographic comparison of code-point lists: Python's `str < str`. -/
def strLtB : List Char → List Char → Bool
  | [], [] => false
  | [], _ :: _ => true
  | _ :: _, [] => false
  | a :: as, b :: bs => if a < b then true else if b < a then false else strLtB as bs

/-- Python string comparison, on the underlying character data. -/
def strLt (a b : String) : Bool := strLtB a.data b.data

/-- Kernel-computable rational multiplication (used for the
`min_fraction * length` products of `overlaps`). -/
def qmul (a b : ℚ) : ℚ := mkRat (a.num * b.num) (a.den * b.den)

/-- `svs_of_interest` from `sv_interval.py`. -/
def svs_of_interest : List String := ["DEL", "INS", "DUP", "DUP:TANDEM", "INV"]

/-- `sv_sources` from `sv_interval.py`; the order is the validation priority. -/
def sv_sources : List String := ["Pindel", "BreakSeq", "HaplotypeCaller", "BreakDancer", "CNVnator"]

/-- `precise_sv_sources` from `sv_interval.py`. -/
def precise_sv_sources : List String := ["Pindel", "BreakSeq", "HaplotypeCaller"]

/-- Python's default `min_fraction` argument `1e-9`, as an exact rational. -/
def default_min_fraction : ℚ := mkRat 1 1000000000

/-- The non-recursive attributes of `SVInterval`, with the defaults of
`SVInterval.__init__` (`chrom=None` and `name=None` are rendered as `""`).
`native_sv` (opaque, never read by the core algorithms) is omitted. -/
structure SVFields where
  chrom : String := ""
  start : Int := 0
  end_ : Int := 0
  name : String := ""
  sv_type : String := ""
  length : Int := 0
  sources : List String := []
  gt : String := "./1"
  wiggle : Int := 0
  is_precise : Bool := false
  is_validated : Bool := false
  cipos : List String := []
  ciend : List String := []
  info : Option String := none
deriving DecidableEq

/-- The `SVInterval` class: plain attributes, the owned `sub_intervals`
forest, and the `validating_interval` reference. -/
inductive SVInterval where
  | mk (fields : SVFields) (sub_intervals : List SVInterval)
      (validating_interval : Option SVInterval)

def SVInterval.fields : SVInterval → SVFields
  | .mk f _ _ => f

def SVInterval.sub_intervals : SVInterval → List SVInterval
  | .mk _ s _ => s

def SVInterval.validating_interval : SVInterval → Option SVInterval
  | .mk _ _ v => v

def SVInterval.chrom (s : SVInterval) : String := s.fields.chrom

def SVInterval.start (s : SVInterval) : Int := s.fields.start

def SVInterval.end_ (s : SVInterval) : Int := s.fields.end_

def SVInterval.name (s : SVInterval) : String := s.fields.name

def SVInterval.sv_type (s : SVInterval) : String := s.fields.sv_type

def SVInterval.length (s : SVInterval) : Int := s.fields.length

def SVInterval.sources (s : SVInterval) : List String := s.fields.sources

def SVInterval.gt (s : SVInterval) : String := s.fields.gt

def SVInterval.wiggle (s : SVInterval) : Int := s.fields.wiggle

def SVInterval.is_precise (s : SVInterval) : Bool := s.fields.is_precise

def SVInterval.is_validated (s : SVInterval) : Bool := s.fields.is_validated

def SVInterval.cipos (s : SVInterval) : List String := s.fields.cipos

def SVInterval.info (s : SVInterval) : Option String := s.fields.info

/-- The default used for (always in-range) list indexing. -/
def dfltSVInterval : SVInterval := .mk {} [] none

/-- `SVInterval.__init__`: assigns every attribute and performs no
validation whatsoever.  The `Except` result models the ability of a Python
constructor to raise; this constructor never does. -/
def SVInterval.init (chrom : String) (start end_ : Int) (name sv_type : String)
    (length : Int) (sources : List String) (gt : String) (wiggle : Int)
    (info : Option String) (cipos ciend : List String) : Except String SVInterval :=
  .ok (.mk { chrom := chrom, start := start, end_ := end_, name := name,
             sv_type := sv_type, length := length, sources := sources, gt := gt,
             wiggle := wiggle, is_precise := false, is_validated := false,
             cipos := cipos, ciend := ciend, info := info } [] none)

/-- `SVInterval.__lt__`: chrom, then start, then end. -/
def SVInterval.lt (a b : SVInterval) : Bool :=
  if a.chrom ≠ b.chrom then strLt a.chrom b.chrom
  else if a.start ≠ b.start then decide (a.start < b.start)
  else decide (a.end_ < b.end_)

/-- `SVInterval.overlaps`.  Both intervals are padded by their own wiggle;
note that, as in the source, `min_overlap_length_self` is unused and
`min_fraction_self` reappears in the second clause. -/
def SVInterval.overlaps (self other : SVInterval)
    (min_fraction_self min_fraction_other : ℚ)
    (min_overlap_length_self min_overlap_length_other : ℚ) : Bool :=
  if self.chrom ≠ other.chrom then false
  else if max (self.start - self.wiggle) (other.start - other.wiggle) ≥
          min (self.end_ + self.wiggle) (other.end_ + other.wiggle) then false
  else
    let self_length : ℚ := ((self.end_ - self.start + 2 * self.wiggle : Int) : ℚ)
    let other_length : ℚ := ((other.end_ - other.start + 2 * other.wiggle : Int) : ℚ)
    let overlap_length : Int := min (self.end_ + self.wiggle) (other.end_ + other.wiggle) -
        max (self.start - self.wiggle) (other.start - other.wiggle)
    decide (((overlap_length : Int) : ℚ) ≥
        max (qmul min_fraction_self self_length) (qmul min_fraction_other other_length)) &&
      decide (((overlap_length : Int) : ℚ) ≥ max min_fraction_self min_overlap_length_other)

/-- `SVInterval.is_adjacent`. -/
def SVInterval.is_adjacent (self other : SVInterval) (gap : Int) : Bool :=
  if self.chrom ≠ other.chrom then false
  else
    decide (self.end_ + gap ≥ other.start ∧ self.end_ + gap < other.end_) ||
      decide (other.end_ + gap ≥ self.start ∧ other.end_ + gap < self.end_)

/-- Python set union `a |= b` on insertion-ordered duplicate-free lists. -/
def unionSources (a b : List String) : List String :=
  a ++ b.filter (fun s => !a.contains s)

/-- `SVInterval.merge`: absorb `interval` into an existing composite. -/
def SVInterval.merge : SVInterval → SVInterval → SVInterval
  | .mk f subs v, interval =>
    .mk { f with
          start := min f.start (interval.start - interval.wiggle),
          end_ := max f.end_ (interval.end_ + interval.wiggle),
          length := max f.length interval.length,
          name := f.name ++ "," ++ interval.name,
          sources := unionSources f.sources interval.sources }
      (subs ++ [interval]) v

/-- `SVInterval()` followed by `set_merged(interval1, interval2)`: the
fields `set_merged` does not assign keep the `__init__` defaults (in
particular the composite's own `wiggle` is `0`). -/
def set_merged (interval1 interval2 : SVInterval) : SVInterval :=
  .mk { chrom := interval1.chrom,
        start := min (interval1.start - interval1.wiggle) (interval2.start - interval2.wiggle),
        end_ := max (interval1.end_ + interval1.wiggle) (interval2.end_ + interval2.wiggle),
        length := max interval1.length interval2.length,
        name := interval1.name ++ "," ++ interval2.name,
        sv_type := interval1.sv_type,
        info := none,
        sources := unionSources interval1.sources interval2.sources,
        gt := interval1.gt }
      [interval1, interval2] none

/-- Stable insertion of `x` behind every element `h` with `h < x`. -/
def insertSorted (x : SVInterval) : List SVInterval → List SVInterval
  | [] => [x]
  | h :: t => if SVInterval.lt h x then h :: insertSorted x t else x :: h :: t

/-- Python `list.sort()` (stable, driven by `__lt__`), as a pure function
returning the sorted content. -/
def pysort : List SVInterval → List SVInterval
  | [] => []
  | h :: t => insertSorted h (pysort t)

/-- The merge condition of `merge_intervals`: `overlaps` with all-default
thresholds, or `is_adjacent` with gap `0`. -/
def mergeCond (cur nxt : SVInterval) : Bool :=
  cur.overlaps nxt default_min_fraction default_min_fraction 1 1 || cur.is_adjacent nxt 0

/-- The linear scan of `merge_intervals` over the sorted tail. -/
def mergeLoop (cur : SVInterval) : List SVInterval → List SVInterval
  | [] => [cur]
  | nxt :: rest =>
    if mergeCond cur nxt then
      if cur.sub_intervals.isEmpty then mergeLoop (set_merged cur nxt) rest
      else mergeLoop (cur.merge nxt) rest
    else cur :: mergeLoop nxt rest

/-- `merge_intervals`: sort, scan once merging the running cluster with the
next interval, emit, and re-sort the result. -/
def merge_intervals (interval_list : List SVInterval) : List SVInterval :=
  match pysort interval_list with
  | [] => []
  | h :: t => pysort (mergeLoop h t)

/-- The content of the caller's argument list after `merge_intervals`
returns: line 271 (`interval_list.sort()`) sorts it in place, and nothing
else mutates it or its elements. -/
def merge_intervals_arg (interval_list : List SVInterval) : List SVInterval :=
  pysort interval_list

mutual

/-- `SVInterval.get_start`: recursive minimum of descendants' raw `start`. -/
def get_start : SVInterval → Int
  | .mk f [] _ => f.start
  | .mk _ (h :: t) _ => get_start_fold (get_start h) t

/-- Python `min` over the remaining recursive values. -/
def get_start_fold : Int → List SVInterval → Int
  | acc, [] => acc
  | acc, h :: t => get_start_fold (min acc (get_start h)) t

end

mutual

/-- `SVInterval.get_end`: recursive maximum of descendants' raw `end`. -/
def get_end : SVInterval → Int
  | .mk f [] _ => f.end_
  | .mk _ (h :: t) _ => get_end_fold (get_end h) t

/-- Python `max` over the remaining recursive values. -/
def get_end_fold : Int → List SVInterval → Int
  | acc, [] => acc
  | acc, h :: t => get_end_fold (max acc (get_end h)) t

end

/-- The loop of `bisect.bisect_left`, with explicit fuel (the loop shrinks
`hi - lo` every iteration, so any fuel `≥ hi - lo` gives Python's result). -/
def bisectLoop (a : List SVInterval) (x : SVInterval) : Nat → Nat → Nat → Nat
  | 0, lo, _ => lo
  | fuel + 1, lo, hi =>
    if lo < hi then
      if SVInterval.lt (a.getD ((lo + hi) / 2) dfltSVInterval) x then
        bisectLoop a x fuel ((lo + hi) / 2 + 1) hi
      else bisectLoop a x fuel lo ((lo + hi) / 2)
    else lo

/-- `bisect.bisect_left(a, x)` over `SVInterval.__lt__`. -/
def bisect_left (a : List SVInterval) (x : SVInterval) : Nat :=
  bisectLoop a x (a.length + 1) 0 a.length

/-- `interval_overlaps_interval_list`: binary search, then test only the
immediate predecessor and successor of the insertion point. -/
def interval_overlaps_interval_list (interval : SVInterval)
    (interval_list : List SVInterval) (min_fraction_self min_fraction_other : ℚ) : Bool :=
  let index := bisect_left interval_list interval
  (decide (index > 0) &&
      interval.overlaps (interval_list.getD (index - 1) dfltSVInterval)
        min_fraction_self min_fraction_other 1 1) ||
    (decide (index < interval_list.length) &&
      interval.overlaps (interval_list.getD index dfltSVInterval)
        min_fraction_self min_fraction_other 1 1)

/-- `list(interval.sources)[0]` under the list model of the source set;
callers guard against the empty set, where Python would raise. -/
def firstSource (s : SVInterval) : String := s.sources.headD ("")

/-- `lists[source]` of `do_validation`: the direct children whose first
source is `source`, in `sub_intervals` order. -/
def sourceList (self : SVInterval) (source : String) : List SVInterval :=
  self.sub_intervals.filter (fun i => firstSource i == source)

/-- The per-child qualification test of `do_validation` (line 142-144):
overlap with the cluster itself, or with the precise-merged list. -/
def validationTest (self child : SVInterval) (pm : List SVInterval) (r : ℚ) : Bool :=
  self.overlaps child r r 1 1 || interval_overlaps_interval_list child pm r r

/-- The children fed to `merge_intervals` for `precise_merged`. -/
def preciseChildren (self : SVInterval) : List SVInterval :=
  self.sub_intervals.filter (fun i => precise_sv_sources.contains (firstSource i))

/-- The `for source in sv_sources` loop of `do_validation` with its
`break`: the first source contributing exactly one child that passes the
qualification test. -/
def findValidating (self : SVInterval) (pm : List SVInterval) (r : ℚ) :
    List String → Option (String × SVInterval)
  | [] => none
  | source :: rest =>
    match sourceList self source with
    | [child] =>
      if validationTest self child pm r then some (source, child)
      else findValidating self pm r rest
    | _ => findValidating self pm r rest

def setBounds : SVInterval → Int → Int → SVInterval
  | .mk f subs v, a, b => .mk { f with start := a, end_ := b } subs v

def setPrecise : SVInterval → Bool → SVInterval
  | .mk f subs v, b => .mk { f with is_precise := b } subs v

def setValidated : SVInterval → Bool → SVInterval
  | .mk f subs v, b => .mk { f with is_validated := b } subs v

def setValidating : SVInterval → Option SVInterval → SVInterval
  | .mk f subs _, v => .mk f subs v

def setLength : SVInterval → Int → SVInterval
  | .mk f subs v, n => .mk { f with length := n } subs v

def setEnd : SVInterval → Int → SVInterval
  | .mk f subs v, e => .mk { f with end_ := e } subs v

def setCipos : SVInterval → List String → SVInterval
  | .mk f subs v, c => .mk { f with cipos := c } subs v

/-- Lines 154-158 of `do_validation`: overwrite `start`, `end`, `length`,
`gt` and `info` with the validating interval's values. -/
def setCoords (self v : SVInterval) : SVInterval :=
  match self with
  | .mk f subs vi =>
    .mk { f with start := v.start, end_ := v.end_, length := v.length,
                 gt := v.gt, info := v.info } subs vi

/-- Lines 160-165 of `do_validation`: scan `sv_sources` in order and take
the first positive `length` among heads of the per-source lists; only a
successful assignment breaks the loop. -/
def fixLength (self : SVInterval) : List String → SVInterval
  | [] => self
  | source :: rest =>
    if self.sources.contains source then
      match sourceList self source with
      | child :: _ =>
        if decide (child.length > 0) then setLength self child.length
        else fixLength self rest
      | [] => fixLength self rest
    else fixLength self rest

/-- Children for which the `precise_merged` comprehension and the
`lists[...]` dict lookups of `do_validation` do not raise: every child has
a non-empty source set whose first element is a recognized source. -/
def childrenSourcesOK (self : SVInterval) : Bool :=
  self.sub_intervals.all (fun i => !i.sources.isEmpty && sv_sources.contains (firstSource i))

/-- `SVInterval.do_validation` (default `overlap_ratio` is `0.5`): `none`
models an uncaught Python exception (empty source set on a leaf or on a
child, or an unrecognized child source). -/
def do_validation (self : SVInterval) (r : ℚ) : Option SVInterval :=
  let s := setBounds self (get_start self) (get_end self)
  if svs_of_interest.contains s.sv_type then
    if s.sub_intervals.isEmpty then
      match s.sources with
      | [] => none
      | source :: _ => some (setPrecise s (precise_sv_sources.contains source))
    else
      if childrenSourcesOK s then
        let pm := merge_intervals (preciseChildren s)
        let s2 := match findValidating s pm r sv_sources with
          | some (source, child) =>
            setPrecise (setValidating (setValidated s (decide (s.sources.length > 1)))
              (some child)) (precise_sv_sources.contains source)
          | none => s
        if s2.is_validated then
          if s2.is_precise then
            match s2.validating_interval with
            | some v =>
              let s3 := setCoords s2 v
              some (if s3.length == 0 then fixLength s3 sv_sources else s3)
            | none => some s2
          else some s2
        else some s2
      else none
  else some s

/-- `SVInterval.fix_pos`: only `INS` calls are moved. -/
def fix_pos (self : SVInterval) : SVInterval :=
  if self.sv_type == "INS" then
    let mid := Int.fdiv (self.start + self.end_) 2
    if !self.is_precise then
      let s1 := setEnd self self.start
      setCipos s1 ["0", toString (s1.end_ - s1.start)]
    else
      setBounds self mid mid
  else self

/-- Leaf `1-0-10` (wiggle 0) used by several concrete instances. -/
def leafA : SVInterval :=
  .mk { chrom := "1", start := 0, end_ := 10, name := "a", sv_type := "DEL",
        sources := ["Pindel"] } [] none

/-- Leaf `1-20-30` (wiggle 0). -/
def leafB : SVInterval :=
  .mk { chrom := "1", start := 20, end_ := 30, name := "b", sv_type := "DEL",
        sources := ["BreakSeq"] } [] none

/-- Leaf `1-21-40` with wiggle 15: its padded start `6` reaches back across
`leafA`'s span. -/
def leafC : SVInterval :=
  .mk { chrom := "1", start := 21, end_ := 40, name := "c", sv_type := "DEL",
        wiggle := 15, sources := ["BreakDancer"] } [] none

/-- Input list for the merge counterexamples. -/
def exListC1 : List SVInterval := [leafA, leafB, leafC]

/-- Reference element `1-0-10` for the near-neighbour counterexample. -/
def refE1 : SVInterval :=
  .mk { chrom := "1", start := 0, end_ := 10, name := "e1", sv_type := "DEL",
        sources := ["Pindel"] } [] none

/-- Zero-length reference element `1-20-20`: it overlaps nothing, but sits
between the query's sort position and `refE1`. -/
def refE2 : SVInterval :=
  .mk { chrom := "1", start := 20, end_ := 20, name := "e2", sv_type := "DEL",
        sources := ["BreakSeq"] } [] none

/-- Query `1-21-30` with wiggle 15: padded to `[6, 45]` it overlaps `refE1`
but not `refE2`. -/
def queryQ : SVInterval :=
  .mk { chrom := "1", start := 21, end_ := 30, name := "q", sv_type := "DEL",
        wiggle := 15, sources := ["BreakDancer"] } [] none

/-- Query `1-5-15` overlapping `refE1`, for the near-neighbour soundness witness. -/
def queryW : SVInterval :=
  .mk { chrom := "1", start := 5, end_ := 15, name := "w", sv_type := "DEL",
        sources := ["BreakDancer"] } [] none

/-- Imprecise `INS` cluster with `start=100`, `end=108` (the fix_pos scenario). -/
def insImprecise : SVInterval :=
  .mk { chrom := "1", start := 100, end_ := 108, name := "i", sv_type := "INS",
        sources := ["BreakDancer"], is_precise := false } [] none

/-- The interval used on both sides of the overlap-symmetry counterexample. -/
def symEx : SVInterval :=
  .mk { chrom := "1", start := 0, end_ := 10, name := "s", sv_type := "DEL",
        sources := ["Pindel"] } [] none

/-- Pindel leaf `1-100-200` of the validation tie-break witness. -/
def pindelLeaf : SVInterval :=
  .mk { chrom := "1", start := 100, end_ := 200, name := "p", sv_type := "DEL",
        length := 100, sources := ["Pindel"] } [] none

/-- BreakDancer leaf `1-105-210` of the validation tie-break witness. -/
def bdLeaf : SVInterval :=
  .mk { chrom := "1", start := 105, end_ := 210, name := "d", sv_type := "DEL",
        length := 105, sources := ["BreakDancer"] } [] none

/-- Composite cluster with one Pindel child and one BreakDancer child. -/
def clusterC6 : SVInterval :=
  .mk { chrom := "1", start := 100, end_ := 210, name := "p,d", sv_type := "DEL",
        length := 105, sources := ["Pindel", "BreakDancer"] } [pindelLeaf, bdLeaf] none

/-- `overlap_ratio = 0.5`, the default of `do_validation`. -/
def halfRatio : ℚ := mkRat 1 2

/-- Leaf whose `sv_type` (`BND`) is not of interest but whose source is a
precise caller. -/
def bndLeaf : SVInterval :=
  .mk { chrom := "1", start := 5, end_ := 10, name := "n", sv_type := "BND",
        sources := ["Pindel"] } [] none

/-- Leaf of interest from a precise source, for the leaf-normalization witness. -/
def delLeaf : SVInterval :=
  .mk { chrom := "1", start := 5, end_ := 10, name := "l", sv_type := "DEL",
        sources := ["Pindel"] } [] none

/-- Child `1-10-20` with wiggle 5 of the bounds-invariant counterexample. -/
def wigChildX : SVInterval :=
  .mk { chrom := "1", start := 10, end_ := 20, name := "x", sv_type := "XXX",
        wiggle := 5, sources := ["Pindel"] } [] none

/-- Child `1-15-25` with wiggle 0 of the bounds-invariant counterexample. -/
def wigChildY : SVInterval :=
  .mk { chrom := "1", start := 15, end_ := 25, name := "y", sv_type := "XXX",
        sources := ["BreakDancer"] } [] none

/-- Composite whose children carry non-zero wiggle; its `sv_type` is not of
interest, so `do_validation` only recomputes the bounds. -/
def wigCluster : SVInterval :=
  .mk { chrom := "1", start := 5, end_ := 25, name := "x,y", sv_type := "XXX",
        sources := ["Pindel", "BreakDancer"] } [wigChildX, wigChildY] none

/-- Unsorted two-element list witnessing the in-place sort of the argument. -/
def exListC10 : List SVInterval := [leafB, leafA]

/-- Decidable check that no element of the list merges with its immediate
successor (the condition `merge_intervals` tests during its scan). -/
def noMergeChain : List SVInterval → Bool
  | [] => true
  | [_] => true
  | a :: b :: t => !mergeCond a b && noMergeChain (b :: t)

/-- Position of a source name in a priority list (length of the list if
absent); `sv_sources` order is the validation priority. -/
def idxIn (s : String) : List String → Nat
  | [] => 0
  | h :: t => if h = s then 0 else idxIn s t + 1

@[simp] theorem setBounds_start (s : SVInterval) (a b : Int) :
    (setBounds s a b).start = a := by cases s; rfl

@[simp] theorem setBounds_end (s : SVInterval) (a b : Int) :
    (setBounds s a b).end_ = b := by cases s; rfl

@[simp] theorem setBounds_sub_intervals (s : SVInterval) (a b : Int) :
    (setBounds s a b).sub_intervals = s.sub_intervals := by cases s; rfl

@[simp] theorem setBounds_sources (s : SVInterval) (a b : Int) :
    (setBounds s a b).sources = s.sources := by cases s; rfl

@[simp] theorem setBounds_sv_type (s : SVInterval) (a b : Int) :
    (setBounds s a b).sv_type = s.sv_type := by cases s; rfl

@[simp] theorem setBounds_is_precise (s : SVInterval) (a b : Int) :
    (setBounds s a b).is_precise = s.is_precise := by cases s; rfl

@[simp] theorem setBounds_is_validated (s : SVInterval) (a b : Int) :
    (setBounds s a b).is_validated = s.is_validated := by cases s; rfl

@[simp] theorem setBounds_validating (s : SVInterval) (a b : Int) :
    (setBounds s a b).validating_interval = s.validating_interval := by cases s; rfl

@[simp] theorem setPrecise_is_precise (s : SVInterval) (b : Bool) :
    (setPrecise s b).is_precise = b := by cases s; rfl

@[simp] theorem setPrecise_start (s : SVInterval) (b : Bool) :
    (setPrecise s b).start = s.start := by cases s; rfl

@[simp] theorem setPrecise_end (s : SVInterval) (b : Bool) :
    (setPrecise s b).end_ = s.end_ := by cases s; rfl

@[simp] theorem setPrecise_is_validated (s : SVInterval) (b : Bool) :
    (setPrecise s b).is_validated = s.is_validated := by cases s; rfl

@[simp] theorem setPrecise_validating (s : SVInterval) (b : Bool) :
    (setPrecise s b).validating_interval = s.validating_interval := by cases s; rfl

@[simp] theorem setPrecise_sub_intervals (s : SVInterval) (b : Bool) :
    (setPrecise s b).sub_intervals = s.sub_intervals := by cases s; rfl

@[simp] theorem setPrecise_sources (s : SVInterval) (b : Bool) :
    (setPrecise s b).sources = s.sources := by cases s; rfl

@[simp] theorem setValidated_is_validated (s : SVInterval) (b : Bool) :
    (setValidated s b).is_validated = b := by cases s; rfl

@[simp] theorem setValidated_start (s : SVInterval) (b : Bool) :
    (setValidated s b).start = s.start := by cases s; rfl

@[simp] theorem setValidated_end (s : SVInterval) (b : Bool) :
    (setValidated s b).end_ = s.end_ := by cases s; rfl

@[simp] theorem setValidated_is_precise (s : SVInterval) (b : Bool) :
    (setValidated s b).is_precise = s.is_precise := by cases s; rfl

@[simp] theorem setValidated_validating (s : SVInterval) (b : Bool) :
    (setValidated s b).validating_interval = s.validating_interval := by cases s; rfl

@[simp] theorem setValidated_sub_intervals (s : SVInterval) (b : Bool) :
    (setValidated s b).sub_intervals = s.sub_intervals := by cases s; rfl

@[simp] theorem setValidated_sources (s : SVInterval) (b : Bool) :
    (setValidated s b).sources = s.sources := by cases s; rfl

@[simp] theorem setValidating_validating (s : SVInterval) (v : Option SVInterval) :
    (setValidating s v).validating_interval = v := by cases s; rfl

@[simp] theorem setValidating_start (s : SVInterval) (v : Option SVInterval) :
    (setValidating s v).start = s.start := by cases s; rfl

@[simp] theorem setValidating_end (s : SVInterval) (v : Option SVInterval) :
    (setValidating s v).end_ = s.end_ := by cases s; rfl

@[simp] theorem setValidating_is_precise (s : SVInterval) (v : Option SVInterval) :
    (setValidating s v).is_precise = s.is_precise := by cases s; rfl

@[simp] theorem setValidating_is_validated (s : SVInterval) (v : Option SVInterval) :
    (setValidating s v).is_validated = s.is_validated := by cases s; rfl

@[simp] theorem setValidating_sub_intervals (s : SVInterval) (v : Option SVInterval) :
    (setValidating s v).sub_intervals = s.sub_intervals := by cases s; rfl

@[simp] theorem setValidating_sources (s : SVInterval) (v : Option SVInterval) :
    (setValidating s v).sources = s.sources := by cases s; rfl

@[simp] theorem setLength_start (s : SVInterval) (n : Int) :
    (setLength s n).start = s.start := by cases s; rfl

@[simp] theorem setLength_end (s : SVInterval) (n : Int) :
    (setLength s n).end_ = s.end_ := by cases s; rfl

@[simp] theorem setLength_is_precise (s : SVInterval) (n : Int) :
    (setLength s n).is_precise = s.is_precise := by cases s; rfl

@[simp] theorem setLength_is_validated (s : SVInterval) (n : Int) :
    (setLength s n).is_validated = s.is_validated := by cases s; rfl

@[simp] theorem setLength_validating (s : SVInterval) (n : Int) :
    (setLength s n).validating_interval = s.validating_interval := by cases s; rfl

@[simp] theorem setCoords_start (s v : SVInterval) :
    (setCoords s v).start = v.start := by cases s; rfl

@[simp] theorem setCoords_end (s v : SVInterval) :
    (setCoords s v).end_ = v.end_ := by cases s; rfl

@[simp] theorem setCoords_is_precise (s v : SVInterval) :
    (setCoords s v).is_precise = s.is_precise := by cases s; rfl

@[simp] theorem setCoords_is_validated (s v : SVInterval) :
    (setCoords s v).is_validated = s.is_validated := by cases s; rfl

@[simp] theorem setCoords_validating (s v : SVInterval) :
    (setCoords s v).validating_interval = s.validating_interval := by cases s; rfl

@[simp] theorem setCoords_sub_intervals (s v : SVInterval) :
    (setCoords s v).sub_intervals = s.sub_intervals := by cases s; rfl

@[simp] theorem setCoords_sources (s v : SVInterval) :
    (setCoords s v).sources = s.sources := by cases s; rfl

theorem fixLength_start (L : List String) (s : SVInterval) :
    (fixLength s L).start = s.start := by
  induction L generalizing s with
  | nil => rfl
  | cons hd tl ih =>
    rw [fixLength]
    split
    · split
      · split
        · simp
        · exact ih s
      · exact ih s
    · exact ih s

theorem fixLength_end (L : List String) (s : SVInterval) :
    (fixLength s L).end_ = s.end_ := by
  induction L generalizing s with
  | nil => rfl
  | cons hd tl ih =>
    rw [fixLength]
    split
    · split
      · split
        · simp
        · exact ih s
      · exact ih s
    · exact ih s

theorem fixLength_is_precise (L : List String) (s : SVInterval) :
    (fixLength s L).is_precise = s.is_precise := by
  induction L generalizing s with
  | nil => rfl
  | cons hd tl ih =>
    rw [fixLength]
    split
    · split
      · split
        · simp
        · exact ih s
      · exact ih s
    · exact ih s

theorem fixLength_is_validated (L : List String) (s : SVInterval) :
    (fixLength s L).is_validated = s.is_validated := by
  induction L generalizing s with
  | nil => rfl
  | cons hd tl ih =>
    rw [fixLength]
    split
    · split
      · split
        · simp
        · exact ih s
      · exact ih s
    · exact ih s

theorem fixLength_validating (L : List String) (s : SVInterval) :
    (fixLength s L).validating_interval = s.validating_interval := by
  induction L generalizing s with
  | nil => rfl
  | cons hd tl ih =>
    rw [fixLength]
    split
    · split
      · split
        · simp
        · exact ih s
      · exact ih s
    · exact ih s

theorem strLtB_irrefl : ∀ a : List Char, strLtB a a = false := by
  intro a
  induction a with
  | nil => rfl
  | cons x xs ih => simp [strLtB, ih]

theorem strLtB_asymm : ∀ a b : List Char, strLtB a b = true → strLtB b a = false := by
  intro a
  induction a with
  | nil =>
    intro b h
    cases b with
    | nil => simp [strLtB] at h
    | cons y ys => rfl
  | cons x xs ih =>
    intro b h
    cases b with
    | nil => simp [strLtB] at h
    | cons y ys =>
      simp only [strLtB] at h ⊢
      by_cases hxy : x < y
      · rw [if_neg (lt_asymm hxy), if_pos hxy]
      · by_cases hyx : y < x
        · rw [if_neg hxy, if_pos hyx] at h
          simp at h
        · rw [if_neg hxy, if_neg hyx] at h
          rw [if_neg hyx, if_neg hxy]
          exact ih ys h

theorem strLtB_eq : ∀ a b : List Char, strLtB a b = false → strLtB b a = false → a = b := by
  intro a
  induction a with
  | nil =>
    intro b h1 _
    cases b with
    | nil => rfl
    | cons y ys => simp [strLtB] at h1
  | cons x xs ih =>
    intro b h1 h2
    cases b with
    | nil => simp [strLtB] at h2
    | cons y ys =>
      simp only [strLtB] at h1 h2
      by_cases hxy : x < y
      · rw [if_pos hxy] at h1
        simp at h1
      · by_cases hyx : y < x
        · rw [if_pos hyx] at h2
          simp at h2
        · rw [if_neg hxy, if_neg hyx] at h1
          rw [if_neg hyx, if_neg hxy] at h2
          have hx : x = y := le_antisymm (not_lt.mp hyx) (not_lt.mp hxy)
          rw [hx, ih ys h1 h2]

theorem strLtB_negtrans : ∀ a b c : List Char,
    strLtB a b = false → strLtB b c = false → strLtB a c = false := by
  intro a
  induction a with
  | nil =>
    intro b c h1 h2
    cases b with
    | nil => exact h2
    | cons y ys => simp [strLtB] at h1
  | cons x xs ih =>
    intro b c h1 h2
    cases b with
    | nil =>
      cases c with
      | nil => rfl
      | cons z zs => simp [strLtB] at h2
    | cons y ys =>
      cases c with
      | nil => rfl
      | cons z zs =>
        simp only [strLtB] at h1 h2 ⊢
        by_cases hxy : x < y
        · rw [if_pos hxy] at h1
          simp at h1
        · by_cases hyz : y < z
          · rw [if_pos hyz] at h2
            simp at h2
          · have hxz : ¬ x < z :=
              fun h => absurd (lt_of_lt_of_le h (le_trans (not_lt.mp hyz) (not_lt.mp hxy)))
                (lt_irrefl x)
            rw [if_neg hxz]
            by_cases hzx : z < x
            · rw [if_pos hzx]
            · rw [if_neg hzx]
              have hx_eq : x = z := le_antisymm (not_lt.mp hzx) (not_lt.mp hxz)
              have hy_le : y ≤ x := not_lt.mp hxy
              have hz_le : z ≤ y := not_lt.mp hyz
              have hy_eq : y = x := le_antisymm hy_le (hx_eq ▸ hz_le)
              rw [if_neg hxy, if_neg (hy_eq ▸ hxy)] at h1
              rw [if_neg hyz, if_neg (by rw [hy_eq, hx_eq]; exact fun h => absurd h (lt_irrefl z))] at h2
              exact ih ys zs h1 h2

theorem strLt_irrefl (s : String) : strLt s s = false := strLtB_irrefl _

theorem strLt_asymm (a b : String) : strLt a b = true → strLt b a = false :=
  strLtB_asymm _ _

theorem strLt_eq (a b : String) : strLt a b = false → strLt b a = false → a = b := by
  intro h1 h2
  have h := strLtB_eq _ _ h1 h2
  cases a with
  | mk da =>
    cases b with
    | mk db => exact congrArg String.mk (by simpa using h)

theorem strLt_negtrans (a b c : String) :
    strLt a b = false → strLt b c = false → strLt a c = false :=
  strLtB_negtrans _ _ _

theorem lt_true_iff (a b : SVInterval) : SVInterval.lt a b = true ↔
    (strLt a.chrom b.chrom = true ∨
      (a.chrom = b.chrom ∧
        (a.start < b.start ∨ (a.start = b.start ∧ a.end_ < b.end_)))) := by
  unfold SVInterval.lt
  by_cases h1 : a.chrom = b.chrom
  · rw [if_neg (by simp [h1])]
    by_cases h2 : a.start = b.start
    · simp [h1, h2, strLt_irrefl]
    · simp [h1, h2, strLt_irrefl]
  · rw [if_pos h1]
    simp [h1]

theorem svlt_asymm (a b : SVInterval) :
    SVInterval.lt a b = true → SVInterval.lt b a = false := by
  intro h
  rw [Bool.eq_false_iff]
  intro h2
  rw [lt_true_iff] at h h2
  rcases h with h | ⟨hc, h⟩
  · rcases h2 with h2 | ⟨hc2, _⟩
    · simp [strLt_asymm _ _ h] at h2
    · rw [hc2] at h
      simp [strLt_irrefl] at h
  · rcases h2 with h2 | ⟨_, h2⟩
    · rw [hc] at h2
      simp [strLt_irrefl] at h2
    · omega

theorem svlt_negtrans (a b c : SVInterval) :
    SVInterval.lt a b = false → SVInterval.lt b c = false →
    SVInterval.lt a c = false := by
  intro h1 h2
  rw [Bool.eq_false_iff] at h1 h2
  rw [Bool.eq_false_iff]
  intro h3
  rw [lt_true_iff] at h3
  have n1 : strLt a.chrom b.chrom = false :=
    Bool.eq_false_iff.mpr (fun e => h1 ((lt_true_iff a b).mpr (Or.inl e)))
  have n2 : strLt b.chrom c.chrom = false :=
    Bool.eq_false_iff.mpr (fun e => h2 ((lt_true_iff b c).mpr (Or.inl e)))
  rcases h3 with h3 | ⟨hc, h3⟩
  · simp [strLt_negtrans _ _ _ n1 n2] at h3
  · have hb : a.chrom = b.chrom := strLt_eq _ _ n1 (by rw [hc]; exact n2)
    have hbc : b.chrom = c.chrom := by rw [← hb, hc]
    have k1 : ¬ (a.start < b.start ∨ (a.start = b.start ∧ a.end_ < b.end_)) :=
      fun e => h1 ((lt_true_iff a b).mpr (Or.inr ⟨hb, e⟩))
    have k2 : ¬ (b.start < c.start ∨ (b.start = c.start ∧ b.end_ < c.end_)) :=
      fun e => h2 ((lt_true_iff b c).mpr (Or.inr ⟨hbc, e⟩))
    omega

theorem mem_insertSorted (x : SVInterval) :
    ∀ (l : List SVInterval) (b : SVInterval),
      b ∈ insertSorted x l ↔ b = x ∨ b ∈ l := by
  intro l
  induction l with
  | nil => intro b; simp [insertSorted]
  | cons h t ih =>
    intro b
    rw [insertSorted]
    split
    · simp only [List.mem_cons, ih b]
      tauto
    · simp only [List.mem_cons]

theorem pairwise_insertSorted (x : SVInterval) :
    ∀ l : List SVInterval,
      l.Pairwise (fun a b => SVInterval.lt b a = false) →
      (insertSorted x l).Pairwise (fun a b => SVInterval.lt b a = false) := by
  intro l
  induction l with
  | nil => intro _; simp [insertSorted]
  | cons h t ih =>
    intro hp
    rw [List.pairwise_cons] at hp
    obtain ⟨hh, ht⟩ := hp
    rw [insertSorted]
    split
    case isTrue hlt =>
      rw [List.pairwise_cons]
      refine ⟨?_, ih ht⟩
      intro b hb
      rcases (mem_insertSorted x t b).mp hb with rfl | hbt
      · exact svlt_asymm h b hlt
      · exact hh b hbt
    case isFalse hlt =>
      have hxf : SVInterval.lt h x = false := Bool.eq_false_iff.mpr hlt
      rw [List.pairwise_cons]
      constructor
      · intro b hb
        rcases List.mem_cons.mp hb with rfl | hbt
        · exact hxf
        · exact svlt_negtrans b h x (hh b hbt) hxf
      · rw [List.pairwise_cons]
        exact ⟨hh, ht⟩

theorem sorted_pysort :
    ∀ l : List SVInterval,
      (pysort l).Pairwise (fun a b => SVInterval.lt b a = false) := by
  intro l
  induction l with
  | nil => simp [pysort]
  | cons h t ih =>
    rw [pysort]
    exact pairwise_insertSorted h _ ih

theorem perm_insertSorted (x : SVInterval) :
    ∀ l : List SVInterval, (insertSorted x l).Perm (x :: l) := by
  intro l
  induction l with
  | nil => exact List.Perm.refl _
  | cons h t ih =>
    rw [insertSorted]
    split
    · exact (ih.cons h).trans (List.Perm.swap x h t)
    · exact List.Perm.refl _

theorem perm_pysort : ∀ l : List SVInterval, (pysort l).Perm l := by
  intro l
  induction l with
  | nil => exact List.Perm.refl _
  | cons h t ih =>
    rw [pysort]
    exact (perm_insertSorted h _).trans (ih.cons h)

theorem pysort_eq_self :
    ∀ l : List SVInterval,
      l.Pairwise (fun a b => SVInterval.lt b a = false) → pysort l = l := by
  intro l
  induction l with
  | nil => intro _; rfl
  | cons a t ih =>
    intro h
    rw [List.pairwise_cons] at h
    rw [pysort, ih h.2]
    cases t with
    | nil => rfl
    | cons b t2 =>
      have hba : SVInterval.lt b a = false := h.1 b (List.mem_cons_self _ _)
      simp [insertSorted, hba]

theorem mergeLoop_of_chain :
    ∀ (t : List SVInterval) (h : SVInterval),
      noMergeChain (h :: t) = true → mergeLoop h t = h :: t := by
  intro t
  induction t with
  | nil => intro h _; rfl
  | cons nxt rest ih =>
    intro h hc
    rw [noMergeChain, Bool.and_eq_true] at hc
    obtain ⟨hmc, hrest⟩ := hc
    have hmc' : mergeCond h nxt = false := by simpa using hmc
    rw [mergeLoop]
    simp [hmc', ih nxt hrest]

theorem bisectLoop_le (a : List SVInterval) (x : SVInterval) :
    ∀ (fuel lo hi : Nat), lo ≤ hi → bisectLoop a x fuel lo hi ≤ hi := by
  intro fuel
  induction fuel with
  | zero => intro lo hi h; simpa [bisectLoop] using h
  | succ n ih =>
    intro lo hi h
    rw [bisectLoop]
    split
    case isTrue hlt =>
      split
      · exact ih _ _ (by omega)
      · exact le_trans (ih _ _ (by omega)) (by omega)
    case isFalse => exact h

theorem bisect_left_le (a : List SVInterval) (x : SVInterval) :
    bisect_left a x ≤ a.length :=
  bisectLoop_le a x _ 0 a.length (Nat.zero_le _)

theorem contains_of_mem {s : String} {L : List String} (h : s ∈ L) :
    L.contains s = true := by
  simpa using h

theorem findValidating_first (s0 : SVInterval) (pm : List SVInterval) (r : ℚ)
    (s1 s2 : String) (x : SVInterval) (y : SVInterval)
    (hlists : ∀ src, sourceList s0 src =
      if src = s1 then [x] else if src = s2 then [y] else [])
    (hQx : validationTest s0 x pm r = true) :
    ∀ L : List String, s1 ∈ L → idxIn s1 L < idxIn s2 L →
      findValidating s0 pm r L = some (s1, x) := by
  intro L
  induction L with
  | nil => intro hmem _; exact absurd hmem (List.not_mem_nil s1)
  | cons hd tl ih =>
    intro hmem horder
    by_cases h1 : hd = s1
    · subst h1
      have e : sourceList s0 hd = [x] := by rw [hlists]; simp
      rw [findValidating, e]
      show (if validationTest s0 x pm r = true then some (hd, x)
            else findValidating s0 pm r tl) = some (hd, x)
      rw [if_pos hQx]
    · have hmem' : s1 ∈ tl := by
        rcases List.mem_cons.mp hmem with h | h
        · exact absurd h.symm h1
        · exact h
      have h2 : hd ≠ s2 := by
        intro he
        subst he
        simp [idxIn, h1] at horder
      have e : sourceList s0 hd = [] := by rw [hlists]; simp [h1, h2]
      rw [findValidating, e]
      show findValidating s0 pm r tl = some (s1, x)
      apply ih hmem'
      have e1 : idxIn s1 (hd :: tl) = idxIn s1 tl + 1 := by simp [idxIn, h1]
      have e2 : idxIn s2 (hd :: tl) = idxIn s2 tl + 1 := by simp [idxIn, h2]
      omega

theorem do_validation_found (c : SVInterval) (r : ℚ) (src : String) (child : SVInterval)
    (htype : svs_of_interest.contains c.sv_type = true)
    (hempty : c.sub_intervals.isEmpty = false)
    (hok : childrenSourcesOK (setBounds c (get_start c) (get_end c)) = true)
    (hfind : findValidating (setBounds c (get_start c) (get_end c))
      (merge_intervals (preciseChildren (setBounds c (get_start c) (get_end c)))) r sv_sources
      = some (src, child)) :
    ∃ c2, do_validation c r = some c2 ∧ c2.validating_interval = some child := by
  rw [do_validation]
  simp only [setBounds_sv_type, setBounds_sub_intervals, htype, hempty, hok, hfind,
    if_true, Bool.false_eq_true, if_false]
  split
  · split
    · split
      · exact ⟨_, rfl, by split <;> simp [fixLength_validating]⟩
      · exact ⟨_, rfl, by simp⟩
    · exact ⟨_, rfl, by simp⟩
  · exact ⟨_, rfl, by simp⟩

/-- C1: corrected.  The output of `merge_intervals` is always sorted by the
total order `(chrom, start, end)`; the non-overlap half of the claim fails
(see the counterexample). -/
theorem claim_C1_sorted (l : List SVInterval) :
    (merge_intervals l).Pairwise (fun a b => SVInterval.lt b a = false) := by
  rw [merge_intervals]
  split
  · exact List.Pairwise.nil
  · exact sorted_pysort _

/-- C1 counterexample: on `exListC1` the merge output has two elements and
they satisfy the merge-time `overlaps` test (with their own wiggles), so
the output is not non-overlapping. -/
theorem claim_C1_counterexample :
    (merge_intervals exListC1).length = 2 ∧
    SVInterval.overlaps ((merge_intervals exListC1).getD 0 dfltSVInterval)
      ((merge_intervals exListC1).getD 1 dfltSVInterval)
      default_min_fraction default_min_fraction 1 1 = true := by decide

/-- C2: code bug.  For the imprecise `INS` interval `start=100`, `end=108`,
`fix_pos` collapses `end` to `start` *before* computing the confidence
width, so the recorded `cipos` is `("0", "0")` and not the claimed
`("0", "8")` even though the original span width is 8. -/
theorem claim_C2_bug_eval :
    (fix_pos insImprecise).end_ = 100 ∧
    (fix_pos insImprecise).cipos = ["0", "0"] ∧
    insImprecise.end_ - insImprecise.start = 8 := by decide

/-- C3: corrected.  `overlaps` swaps its roles symmetrically except in the
second threshold clause, which mixes `min_fraction_self` with
`min_overlap_length_other`; symmetry therefore holds exactly when
`max f y = max g x`. -/
theorem claim_C3_amended (a b : SVInterval) (f g x y : ℚ)
    (h : max f y = max g x) :
    a.overlaps b f g x y = b.overlaps a g f y x := by
  unfold SVInterval.overlaps
  by_cases h1 : a.chrom = b.chrom
  · rw [if_neg (show ¬ (a.chrom ≠ b.chrom) by simp [h1])]
    rw [if_neg (show ¬ (b.chrom ≠ a.chrom) by simp [h1])]
    by_cases h2 : max (a.start - a.wiggle) (b.start - b.wiggle) ≥
        min (a.end_ + a.wiggle) (b.end_ + b.wiggle)
    · have h2' : max (b.start - b.wiggle) (a.start - a.wiggle) ≥
          min (b.end_ + b.wiggle) (a.end_ + a.wiggle) := by
        rw [max_comm, min_comm]; exact h2
      rw [if_pos h2, if_pos h2']
    · have h2' : ¬ (max (b.start - b.wiggle) (a.start - a.wiggle) ≥
          min (b.end_ + b.wiggle) (a.end_ + a.wiggle)) := by
        rw [max_comm, min_comm]; exact h2
      rw [if_neg h2, if_neg h2']
      simp only [max_comm, min_comm, h]
  · rw [if_pos (show a.chrom ≠ b.chrom from h1)]
    rw [if_pos (show b.chrom ≠ a.chrom from fun e => h1 e.symm)]

/-- C3 witness: the amended symmetry applied at a concrete instance whose
thresholds satisfy `max f y = max g x`. -/
theorem claim_C3_witness :
    symEx.overlaps leafB 1 2 1 2 = leafB.overlaps symEx 2 1 2 1 :=
  claim_C3_amended symEx leafB 1 2 1 2 (by decide)

/-- C3 counterexample: with `a = b = symEx` and thresholds
`f = g = 0, x = 0, y = 20`, the two sides of the claimed symmetry differ. -/
theorem claim_C3_counterexample :
    symEx.overlaps symEx 0 0 0 20 = false ∧
    symEx.overlaps symEx 0 0 20 0 = true := by decide

/-- C4: corrected.  Soundness of the near-neighbour lookup holds: whenever
`interval_overlaps_interval_list` answers `true`, some element of the list
overlaps the query.  The completeness half of the claim fails (see the
counterexample). -/
theorem claim_C4_sound (q : SVInterval) (l : List SVInterval) (f g : ℚ)
    (h : interval_overlaps_interval_list q l f g = true) :
    ∃ e ∈ l, q.overlaps e f g 1 1 = true := by
  simp only [interval_overlaps_interval_list] at h
  rcases Bool.or_eq_true_iff.mp h with h1 | h1 <;> rw [Bool.and_eq_true] at h1 <;>
    obtain ⟨ha, hb⟩ := h1
  · have hgt : 0 < bisect_left l q := of_decide_eq_true ha
    have hlt : bisect_left l q - 1 < l.length := by
      have := bisect_left_le l q
      omega
    exact ⟨_, by rw [List.getD_eq_getElem l dfltSVInterval hlt]; exact List.getElem_mem hlt, hb⟩
  · have hlt : bisect_left l q < l.length := of_decide_eq_true ha
    exact ⟨_, by rw [List.getD_eq_getElem l dfltSVInterval hlt]; exact List.getElem_mem hlt, hb⟩

/-- C4 witness: the soundness direction applied to a query that does
overlap the sole element of the reference list. -/
theorem claim_C4_witness :
    ∃ e ∈ [refE1], queryW.overlaps e default_min_fraction default_min_fraction 1 1 = true :=
  claim_C4_sound queryW [refE1] default_min_fraction default_min_fraction (by decide)

/-- C4 counterexample: `[refE1, refE2]` is sorted, pairwise non-overlapping
and non-adjacent (it is even a fixed point of `merge_intervals`), yet the
lookup answers `false` for `queryQ` although `queryQ` overlaps `refE1`:
the zero-length `refE2` occupies the only checked slot. -/
theorem claim_C4_counterexample :
    SVInterval.lt refE1 refE2 = true ∧
    mergeCond refE1 refE2 = false ∧ mergeCond refE2 refE1 = false ∧
    interval_overlaps_interval_list queryQ [refE1, refE2]
      default_min_fraction default_min_fraction = false ∧
    queryQ.overlaps refE1 default_min_fraction default_min_fraction 1 1 = true := by decide

/-- C5: corrected.  `merge_intervals` maps any sorted list whose
consecutive elements neither overlap nor are gap-0 adjacent to itself;
outputs of `merge_intervals` need not satisfy that condition, so
idempotence fails in general (see the counterexample). -/
theorem claim_C5_amended (l : List SVInterval)
    (hs : l.Pairwise (fun a b => SVInterval.lt b a = false))
    (hc : noMergeChain l = true) :
    merge_intervals l = l := by
  rw [merge_intervals, pysort_eq_self l hs]
  cases l with
  | nil => rfl
  | cons h t =>
    show pysort (mergeLoop h t) = h :: t
    rw [mergeLoop_of_chain t h hc]
    exact pysort_eq_self _ hs

/-- C5 witness: a sorted, non-overlapping two-element list is returned
unchanged. -/
theorem claim_C5_witness : merge_intervals [leafA, leafB] = [leafA, leafB] :=
  claim_C5_amended _ (by decide) (by decide)

/-- C5 counterexample: `merge_intervals exListC1` is an output of
`merge_intervals` with two elements, but merging it again yields one
element, so the second pass is not the identity. -/
theorem claim_C5_counterexample :
    (merge_intervals exListC1).length = 2 ∧
    (merge_intervals (merge_intervals exListC1)).length = 1 := by decide

/-- C6: confirmed.  In a composite whose two children come from two
different recognized tools, one child each, and both children pass the
validation test, `do_validation` records the child of the tool that comes
earlier in `sv_sources` as `validating_interval`, for either order of
`sub_intervals`. -/
theorem claim_C6_tiebreak (c : SVInterval) (r : ℚ) (s1 s2 : String)
    (x y : SVInterval)
    (hmem1 : s1 ∈ sv_sources) (hmem2 : s2 ∈ sv_sources)
    (horder : idxIn s1 sv_sources < idxIn s2 sv_sources)
    (hsub : c.sub_intervals = [x, y] ∨ c.sub_intervals = [y, x])
    (hx : x.sources = [s1]) (hy : y.sources = [s2])
    (htype : svs_of_interest.contains c.sv_type = true)
    (hQx : validationTest (setBounds c (get_start c) (get_end c)) x
      (merge_intervals (preciseChildren (setBounds c (get_start c) (get_end c)))) r = true)
    (hQy : validationTest (setBounds c (get_start c) (get_end c)) y
      (merge_intervals (preciseChildren (setBounds c (get_start c) (get_end c)))) r = true) :
    ∃ c2, do_validation c r = some c2 ∧ c2.validating_interval = some x := by
  have hne : s1 ≠ s2 := by
    intro h
    rw [h] at horder
    exact lt_irrefl _ horder
  have hfx : firstSource x = s1 := by simp [firstSource, hx]
  have hfy : firstSource y = s2 := by simp [firstSource, hy]
  have hlists : ∀ src, sourceList (setBounds c (get_start c) (get_end c)) src =
      if src = s1 then [x] else if src = s2 then [y] else [] := by
    intro src
    rw [sourceList, setBounds_sub_intervals]
    rcases hsub with h | h <;> rw [h] <;>
      by_cases e1 : src = s1
    · subst e1
      simp [hfx, hfy, Ne.symm hne]
    · by_cases e2 : src = s2
      · subst e2
        simp [hfx, hfy, hne, e1]
      · have e1' : ¬ (s1 = src) := fun hh => e1 hh.symm
        have e2' : ¬ (s2 = src) := fun hh => e2 hh.symm
        simp [hfx, hfy, e1, e2, e1', e2']
    · subst e1
      simp [hfx, hfy, Ne.symm hne]
    · by_cases e2 : src = s2
      · subst e2
        simp [hfx, hfy, hne, e1]
      · have e1' : ¬ (s1 = src) := fun hh => e1 hh.symm
        have e2' : ¬ (s2 = src) := fun hh => e2 hh.symm
        simp [hfx, hfy, e1, e2, e1', e2']
  have hempty : c.sub_intervals.isEmpty = false := by
    rcases hsub with h | h <;> rw [h] <;> rfl
  have hok : childrenSourcesOK (setBounds c (get_start c) (get_end c)) = true := by
    rw [childrenSourcesOK, setBounds_sub_intervals]
    rcases hsub with h | h <;> rw [h] <;>
      simp [hx, hy, hfx, hfy, hmem1, hmem2]
  have hfind := findValidating_first (setBounds c (get_start c) (get_end c))
    (merge_intervals (preciseChildren (setBounds c (get_start c) (get_end c)))) r
    s1 s2 x y hlists hQx sv_sources hmem1 horder
  exact do_validation_found c r s1 x htype hempty hok hfind

/-- C6 witness: the Pindel child outranks the BreakDancer child in
`clusterC6`, for the default ratio `0.5`. -/
theorem claim_C6_witness :
    ∃ c2, do_validation clusterC6 halfRatio = some c2 ∧
      c2.validating_interval = some pindelLeaf :=
  claim_C6_tiebreak clusterC6 halfRatio ("Pindel") ("BreakDancer") pindelLeaf bdLeaf
    (by decide) (by decide) (by decide) (Or.inl rfl) rfl rfl (by decide)
    (by decide) (by decide)

/-- C7: corrected.  For a leaf with a singleton source set and
`is_validated = false` beforehand, `do_validation` leaves `is_validated`
false; `is_precise` becomes the precise-source membership only when the
`sv_type` is of interest, and is otherwise left unchanged (the claim
omitted that guard — see the counterexample). -/
theorem claim_C7_amended (c : SVInterval) (r : ℚ) (s : String)
    (hsub : c.sub_intervals = []) (hs : c.sources = [s])
    (hv : c.is_validated = false) :
    ∃ c2, do_validation c r = some c2 ∧ c2.is_validated = false ∧
      c2.is_precise = (if svs_of_interest.contains c.sv_type = true
        then precise_sv_sources.contains s else c.is_precise) := by
  by_cases h : svs_of_interest.contains c.sv_type = true
  · have h' : c.sv_type ∈ svs_of_interest := by simpa using h
    refine ⟨setPrecise (setBounds c (get_start c) (get_end c))
      (precise_sv_sources.contains s), ?_, ?_, ?_⟩
    · rw [do_validation]
      simp [h', hsub, hs]
    · simp [hv]
    · simp [h']
  · have h' : c.sv_type ∉ svs_of_interest := by simpa using h
    refine ⟨setBounds c (get_start c) (get_end c), ?_, ?_, ?_⟩
    · rw [do_validation]
      simp only [setBounds_sv_type]
      rw [if_neg h]
    · simp [hv]
    · simp [h']

/-- C7 witness: the amended statement at a `DEL` leaf from the precise
caller Pindel. -/
theorem claim_C7_witness :
    ∃ c2, do_validation delLeaf halfRatio = some c2 ∧ c2.is_validated = false ∧
      c2.is_precise = (if svs_of_interest.contains delLeaf.sv_type = true
        then precise_sv_sources.contains ("Pindel") else delLeaf.is_precise) :=
  claim_C7_amended delLeaf halfRatio ("Pindel") rfl rfl rfl

/-- C7 counterexample: a leaf of type `BND` (not of interest) from Pindel
(a precise caller) keeps `is_precise = false` after `do_validation`, so
`is_precise` does not equal the precise-source membership for every leaf. -/
theorem claim_C7_counterexample :
    bndLeaf.sub_intervals = [] ∧ bndLeaf.sources = ["Pindel"] ∧
    bndLeaf.is_validated = false ∧
    precise_sv_sources.contains ("Pindel") = true ∧
    (do_validation bndLeaf halfRatio).map (fun c => c.is_precise) = some false :=
  ⟨rfl, rfl, rfl, by decide, by decide⟩

/-- C8: corrected.  After `do_validation`, either the bounds are the
recursive min/max over descendants of the *raw* `start`/`end` (no wiggle
adjustment, contrary to the claim), or the cluster ended validated and
precise and its bounds were overwritten with the validating interval's
bounds. -/
theorem claim_C8_amended (c : SVInterval) (r : ℚ) (c2 : SVInterval)
    (hdo : do_validation c r = some c2) :
    (c2.start = get_start c ∧ c2.end_ = get_end c) ∨
    (∃ v, c2.validating_interval = some v ∧ c2.start = v.start ∧
      c2.end_ = v.end_ ∧ c2.is_validated = true ∧ c2.is_precise = true) := by
  simp only [do_validation] at hdo
  split at hdo
  · split at hdo
    · split at hdo
      · exact absurd hdo (by simp)
      · rw [Option.some.injEq] at hdo
        subst hdo
        left
        simp
    · split at hdo
      · cases hfind : findValidating (setBounds c (get_start c) (get_end c))
            (merge_intervals (preciseChildren (setBounds c (get_start c) (get_end c)))) r
            sv_sources with
        | none =>
          simp only [hfind] at hdo
          split at hdo
          · split at hdo
            · simp only [setBounds_validating] at hdo
              cases hcv : c.validating_interval with
              | none =>
                simp only [hcv] at hdo
                rw [Option.some.injEq] at hdo
                subst hdo
                left
                simp
              | some v =>
                simp only [hcv] at hdo
                rw [Option.some.injEq] at hdo
                subst hdo
                right
                rename_i hval hprec
                refine ⟨v, ?_, ?_, ?_, ?_, ?_⟩ <;> split <;>
                  simp_all [fixLength_validating, fixLength_start, fixLength_end,
                    fixLength_is_validated, fixLength_is_precise, hcv]
            · rw [Option.some.injEq] at hdo
              subst hdo
              left
              simp
          · rw [Option.some.injEq] at hdo
            subst hdo
            left
            simp
        | some pr =>
          obtain ⟨src, child⟩ := pr
          simp only [hfind] at hdo
          split at hdo
          · split at hdo
            · simp only [setPrecise_validating, setValidating_validating] at hdo
              rw [Option.some.injEq] at hdo
              subst hdo
              right
              rename_i hval hprec
              refine ⟨child, ?_, ?_, ?_, ?_, ?_⟩ <;> split <;>
                simp_all [fixLength_validating, fixLength_start, fixLength_end,
                  fixLength_is_validated, fixLength_is_precise]
            · rw [Option.some.injEq] at hdo
              subst hdo
              left
              simp
          · rw [Option.some.injEq] at hdo
            subst hdo
            left
            simp
      · exact absurd hdo (by simp)
  · rw [Option.some.injEq] at hdo
    subst hdo
    left
    simp

/-- C8 witness: the amended statement at the concrete wiggle cluster. -/
theorem claim_C8_witness :
    ((setBounds wigCluster (get_start wigCluster) (get_end wigCluster)).start
        = get_start wigCluster ∧
      (setBounds wigCluster (get_start wigCluster) (get_end wigCluster)).end_
        = get_end wigCluster) ∨
    (∃ v, (setBounds wigCluster (get_start wigCluster) (get_end wigCluster)).validating_interval
        = some v ∧
      (setBounds wigCluster (get_start wigCluster) (get_end wigCluster)).start = v.start ∧
      (setBounds wigCluster (get_start wigCluster) (get_end wigCluster)).end_ = v.end_ ∧
      (setBounds wigCluster (get_start wigCluster) (get_end wigCluster)).is_validated = true ∧
      (setBounds wigCluster (get_start wigCluster) (get_end wigCluster)).is_precise = true) :=
  claim_C8_amended wigCluster halfRatio _ rfl

/-- C8 counterexample: in `wigCluster` the children's wiggle-adjusted
minimum start is 5, but after `do_validation` the composite's `start` is
10 (the raw minimum), so the wiggle-adjusted reading of the invariant is
false. -/
theorem claim_C8_counterexample :
    (do_validation wigCluster halfRatio).map (fun c => c.start) = some 10 ∧
    min (wigChildX.start - wigChildX.wiggle) (wigChildY.start - wigChildY.wiggle) = 5 ∧
    wigCluster.sub_intervals = [wigChildX, wigChildY] :=
  ⟨by decide, by decide, rfl⟩

/-- C9: corrected.  `__init__` performs no validation: construction always
succeeds, whatever the `sources` argument (including the empty set), and
the resulting object carries the given sources. -/
theorem claim_C9_amended (chrom : String) (start end_ : Int)
    (name sv_type : String) (length : Int) (sources : List String)
    (gt : String) (wiggle : Int) (info : Option String)
    (cipos ciend : List String) :
    ∃ iv, SVInterval.init chrom start end_ name sv_type length sources gt
        wiggle info cipos ciend = .ok iv ∧
      iv.sources = sources ∧ iv.sub_intervals = [] :=
  ⟨_, rfl, rfl, rfl⟩

/-- C9 counterexample: constructing with zero sources is not rejected; it
returns `.ok` with an interval whose `sources` is empty. -/
theorem claim_C9_counterexample :
    SVInterval.init ("1") 100 200 ("x") ("DEL") 100 [] ("./1") 0 none [] [] =
      .ok (.mk { chrom := "1", start := 100, end_ := 200, name := "x",
                 sv_type := "DEL", length := 100, sources := [], gt := "./1",
                 wiggle := 0, is_precise := false, is_validated := false,
                 cipos := [], ciend := [], info := none } [] none) := rfl

/-- C10: corrected.  `merge_intervals` sorts its argument list in place:
after the call the argument holds the same elements as a permutation of
the original, in sorted order — not, in general, in the original order. -/
theorem claim_C10_amended (l : List SVInterval) :
    (merge_intervals_arg l).Perm l ∧
    (merge_intervals_arg l).Pairwise (fun a b => SVInterval.lt b a = false) :=
  ⟨perm_pysort l, sorted_pysort l⟩

/-- C10 counterexample: for the unsorted input `[leafB, leafA]` the
argument list after the call differs from the original (its head moved). -/
theorem claim_C10_counterexample :
    ¬ (merge_intervals_arg exListC10 = exListC10) :=
  fun h => absurd (congrArg (fun t => (t.headD dfltSVInterval).start) h) (by decide)
